import Mathlib

/-!
Shallow embedding of the CQL binary protocol layer of `src/transport/server.cc`
(frame codec, wire-type reader, response writer, connection state machine),
together with theorems settling the specification claims about it.

Byte strings are `List Nat` (each element a byte value).  The C++ source
performs unchecked buffer reads; an out-of-bounds access (undefined behavior in
the source) is modelled as the failure `Failure.oob`.  A failed `assert`
(which aborts the process) is modelled as `Failure.abort`.  The exceptions
`cql_frame_error` and `bad_cql_protocol_version` thrown by the frame parser are
`Failure.frameError` and `Failure.badVersion`.
-/

namespace Scylla

/-- Big-endian 2-byte encoding, as produced by `htons` (truncates to 16 bits). -/
def u16be (n : Nat) : List Nat := [n / 256 % 256, n % 256]

/-- Big-endian 4-byte encoding, as produced by `htonl` (truncates to 32 bits). -/
def u32be (n : Nat) : List Nat :=
  [n / 16777216 % 256, n / 65536 % 256, n / 256 % 256, n % 256]

/-- Big-endian value of a byte list, as computed by the shift-or chains in
`read_short`/`read_int`/`read_long`. -/
def beNat (l : List Nat) : Nat := l.foldl (fun a b => a * 256 + b) 0

/-- Failure modes of the C++ code.  `frameError` and `badVersion` are the two
thrown exceptions (`cql_frame_error`, `bad_cql_protocol_version`); `abort` is a
failed `assert` (terminates the process); `oob` is an out-of-bounds buffer
access (undefined behavior — there is no truncation check in the source). -/
inductive Failure
  | frameError
  | badVersion
  | abort
  | oob
  deriving DecidableEq

/-- `connection::read_byte`: unchecked `buf[0]`, then `trim_front(1)`. -/
def read_byte (buf : List Nat) : Except Failure (Nat × List Nat) :=
  match buf with
  | b :: rest => .ok (b, rest)
  | [] => .error .oob

/-- `connection::read_short`: unchecked big-endian read of `p[0..1]`. -/
def read_short (buf : List Nat) : Except Failure (Nat × List Nat) :=
  match buf with
  | a :: b :: rest => .ok (a * 256 + b, rest)
  | _ => .error .oob

/-- `connection::read_int`: unchecked big-endian read of `p[0..3]`. -/
def read_int (buf : List Nat) : Except Failure (Nat × List Nat) :=
  match buf with
  | a :: b :: c :: d :: rest => .ok (((a * 256 + b) * 256 + c) * 256 + d, rest)
  | _ => .error .oob

/-- `connection::read_long`: unchecked big-endian read of `p[0..7]`. -/
def read_long (buf : List Nat) : Except Failure (Nat × List Nat) :=
  match buf with
  | a :: b :: c :: d :: e :: f :: g :: h :: rest =>
      .ok (((((((a * 256 + b) * 256 + c) * 256 + d) * 256 + e) * 256 + f) * 256
        + g) * 256 + h, rest)
  | _ => .error .oob

/-- `connection::read_string`: u16 length prefix read as `int16_t` (a length
with the sign bit set is cast to a huge `size_t` — out-of-bounds), then an
unchecked copy of that many bytes. -/
def read_string (buf : List Nat) : Except Failure (List Nat × List Nat) :=
  match read_short buf with
  | .error e => .error e
  | .ok (n, rest) =>
    if 32768 ≤ n then .error .oob
    else if rest.length < n then .error .oob
    else .ok (rest.take n, rest.drop n)

/-- `connection::read_long_string`: u32 length prefix read as `int32_t`, then an
unchecked copy of that many bytes. -/
def read_long_string (buf : List Nat) : Except Failure (List Nat × List Nat) :=
  match read_int buf with
  | .error e => .error e
  | .ok (n, rest) =>
    if 2147483648 ≤ n then .error .oob
    else if rest.length < n then .error .oob
    else .ok (rest.take n, rest.drop n)

/-- `db::consistency_level` (the eleven defined levels). -/
inductive consistency_level
  | ANY | ONE | TWO | THREE | QUORUM | ALL
  | LOCAL_QUORUM | EACH_QUORUM | SERIAL | LOCAL_SERIAL | LOCAL_ONE
  deriving DecidableEq

/-- `wire_to_consistency`: the fixed wire-code table; the `default` branch is
`assert(0)` (process abort, not a surfaced decode error). -/
def wire_to_consistency (v : Nat) : Except Failure consistency_level :=
  match v with
  | 0x0000 => .ok .ANY
  | 0x0001 => .ok .ONE
  | 0x0002 => .ok .TWO
  | 0x0003 => .ok .THREE
  | 0x0004 => .ok .QUORUM
  | 0x0005 => .ok .ALL
  | 0x0006 => .ok .LOCAL_QUORUM
  | 0x0007 => .ok .EACH_QUORUM
  | 0x0008 => .ok .SERIAL
  | 0x0009 => .ok .LOCAL_SERIAL
  | 0x000A => .ok .LOCAL_ONE
  | _ => .error .abort

/-- `consistency_to_wire`: the inverse fixed table. -/
def consistency_to_wire (c : consistency_level) : Nat :=
  match c with
  | .ANY => 0x0000
  | .ONE => 0x0001
  | .TWO => 0x0002
  | .THREE => 0x0003
  | .QUORUM => 0x0004
  | .ALL => 0x0005
  | .LOCAL_QUORUM => 0x0006
  | .EACH_QUORUM => 0x0007
  | .SERIAL => 0x0008
  | .LOCAL_SERIAL => 0x0009
  | .LOCAL_ONE => 0x000A

/-- `connection::read_consistency`: a short decoded through the table. -/
def read_consistency (buf : List Nat) : Except Failure (consistency_level × List Nat) :=
  match read_short buf with
  | .error e => .error e
  | .ok (n, rest) =>
    match wire_to_consistency n with
    | .error e => .error e
    | .ok c => .ok (c, rest)

/-- First-match association lookup (the abstraction of `unordered_map::find`). -/
def lookupA (m : List (List Nat × List Nat)) (x : List Nat) : Option (List Nat) :=
  match m with
  | [] => none
  | (k, v) :: t => if k = x then some v else lookupA t x

/-- `std::unordered_map::emplace`: inserts only when the key is absent — an
existing binding is NOT overwritten. -/
def emplace (m : List (List Nat × List Nat)) (k v : List Nat) :
    List (List Nat × List Nat) :=
  if (lookupA m k).isSome then m else m ++ [(k, v)]

/-- The loop body of `read_string_map`: read `n` key/value pairs, `emplace`-ing
each into the accumulated map. -/
def read_pairs (n : Nat) (m : List (List Nat × List Nat)) (buf : List Nat) :
    Except Failure (List (List Nat × List Nat) × List Nat) :=
  match n with
  | 0 => .ok (m, buf)
  | n + 1 =>
    match read_string buf with
    | .error e => .error e
    | .ok (k, buf) =>
      match read_string buf with
      | .error e => .error e
      | .ok (v, buf) => read_pairs n (emplace m k v) buf

/-- `connection::read_string_map`: u16 pair count used as a SIGNED `int16_t`
loop bound (a count with the sign bit set runs zero iterations), then that many
pairs inserted via `emplace`. -/
def read_string_map (buf : List Nat) :
    Except Failure (List (List Nat × List Nat) × List Nat) :=
  match read_short buf with
  | .error e => .error e
  | .ok (n, rest) => read_pairs (if 32768 ≤ n then 0 else n) [] rest

/-- Wire encoding of one short string (for building test inputs and the
round-trip statements). -/
def encode_string (s : List Nat) : List Nat := u16be s.length ++ s

/-- Wire encoding of a string map body: u16 pair count, then the encoded pairs. -/
def encode_string_map (ps : List (List Nat × List Nat)) : List Nat :=
  u16be ps.length ++ (ps.map (fun p => encode_string p.1 ++ encode_string p.2)).flatten

/-- `response::write_short` (`htons`). -/
def write_short_b (n : Nat) : List Nat := u16be n

/-- `response::write_int` (`htonl`). -/
def write_int_b (n : Nat) : List Nat := u32be n

/-- `response::write_string`: `assert(size < INT16_MAX)`, then u16 length and
the bytes. -/
def write_string_b (s : List Nat) : Except Failure (List Nat) :=
  if 32767 ≤ s.length then .error .abort
  else .ok (u16be s.length ++ s)

/-- Concatenated `write_string` calls (the loop bodies of `write_string_list`
and `write_string_map`). -/
def write_strings (l : List (List Nat)) : Except Failure (List Nat) :=
  match l with
  | [] => .ok []
  | s :: t =>
    match write_string_b s with
    | .error e => .error e
    | .ok hd =>
      match write_strings t with
      | .error e => .error e
      | .ok tl => .ok (hd ++ tl)

/-- `response::write_string_list`: `assert(count < INT16_MAX)`, u16 count, then
each string. -/
def write_string_list_b (l : List (List Nat)) : Except Failure (List Nat) :=
  if 32767 ≤ l.length then .error .abort
  else
    match write_strings l with
    | .error e => .error e
    | .ok body => .ok (u16be l.length ++ body)

/-- `std::multimap::insert`: insert at the upper bound — after every entry whose
key is ≤ the new key.  Keeps the list sorted by key (lexicographic byte order,
`std::less<sstring>`); entries with equal keys keep insertion order. -/
def mm_insert (mm : List (List Nat × List Nat)) (p : List Nat × List Nat) :
    List (List Nat × List Nat) :=
  match mm with
  | [] => [p]
  | q :: t => if p.1 < q.1 then p :: q :: t else q :: mm_insert t p

/-- The key-collection loop of `write_string_multimap`, with an explicit fuel
(the loop runs at most one iteration per multimap entry, so fuel = entry count
never runs out): record the first key, then jump to its `upper_bound` (skip
every entry with key ≤ it) and repeat. -/
def collectKeysAux : Nat → List (List Nat × List Nat) → List (List Nat)
  | _, [] => []
  | 0, _ :: _ => []
  | fuel + 1, (k, _) :: t =>
      k :: collectKeysAux fuel (t.dropWhile (fun p => decide (p.1 ≤ k)))

/-- The key-collection loop of `write_string_multimap`: record the first key,
then jump to its `upper_bound` (skip every entry with key ≤ it) and repeat. -/
def collectKeys (mm : List (List Nat × List Nat)) : List (List Nat) :=
  collectKeysAux mm.length mm

/-- The `equal_range` of key `k` in a sorted multimap: drop entries with
key < k (`lower_bound`), take entries with key ≤ k (`upper_bound`), and collect
the values. -/
def groupValues (mm : List (List Nat × List Nat)) (k : List Nat) : List (List Nat) :=
  ((mm.dropWhile (fun p => decide (p.1 < k))).takeWhile
    (fun p => decide (p.1 ≤ k))).map Prod.snd

/-- The key/value-group structure that `write_string_multimap` serializes: each
collected key paired with its grouped values. -/
def multimap_groups (mm : List (List Nat × List Nat)) :
    List (List Nat × List (List Nat)) :=
  (collectKeys mm).map (fun k => (k, groupValues mm k))

/-- Serialization of the collected groups: per key, the key then its value
list. -/
def write_groups (gs : List (List Nat × List (List Nat))) : Except Failure (List Nat) :=
  match gs with
  | [] => .ok []
  | (k, vs) :: t =>
    match write_string_b k with
    | .error e => .error e
    | .ok kb =>
      match write_string_list_b vs with
      | .error e => .error e
      | .ok vb =>
        match write_groups t with
        | .error e => .error e
        | .ok tb => .ok (kb ++ vb ++ tb)

/-- `response::write_string_multimap`: `assert(keys < INT16_MAX)`, u16 key
count, then each key with its grouped values. -/
def write_string_multimap (mm : List (List Nat × List Nat)) :
    Except Failure (List Nat) :=
  if 32767 ≤ (collectKeys mm).length then .error .abort
  else
    match write_groups (multimap_groups mm) with
    | .error e => .error e
    | .ok body => .ok (u16be (collectKeys mm).length ++ body)

/-- The canonical (version-normalized) frame header, `cql_binary_frame_v3`
after `ntoh`. -/
structure CqlFrame where
  version : Nat
  flags : Nat
  stream : Nat
  opcode : Nat
  length : Nat
  deriving DecidableEq

/-- `connection::frame_size`: 8 bytes for versions 1–2, 9 for versions 3–4. -/
def frame_size (v : Nat) : Nat := if v < 3 then 8 else 9

/-- `response::make_frame`: the response header for `version`.  The version
byte carries the response bit `0x80`; the stream id is truncated to one byte
for v1/v2 and written big-endian for v3/v4; an unsupported version hits
`assert(0)`. -/
def make_frame (version stream opcode length : Nat) : Except Failure (List Nat) :=
  match version with
  | 1 | 2 => .ok ([version ||| 128, 0, stream % 256, opcode % 256] ++ u32be length)
  | 3 | 4 => .ok ([version ||| 128, 0] ++ u16be stream ++ [opcode % 256] ++ u32be length)
  | _ => .error .abort

/-- The layout-normalization part of `connection::parse_frame`: overlay the
v1/v2 or v3/v4 wire struct on the bytes and convert to host byte order (an
unknown version is the `default: abort()` branch). -/
def parse_frame_fields (v : Nat) (buf : List Nat) : Except Failure CqlFrame :=
  match v with
  | 1 | 2 =>
    match buf with
    | ver :: fl :: st :: op :: l0 :: l1 :: l2 :: l3 :: _ =>
        .ok ⟨ver, fl, st, op, beNat [l0, l1, l2, l3]⟩
    | _ => .error .oob
  | 3 | 4 =>
    match buf with
    | ver :: fl :: s0 :: s1 :: op :: l0 :: l1 :: l2 :: l3 :: _ =>
        .ok ⟨ver, fl, s0 * 256 + s1, op, beNat [l0, l1, l2, l3]⟩
    | _ => .error .oob
  | _ => .error .abort

/-- `connection::parse_frame`: exact-size check (`cql_frame_error`), layout
normalization, then the locked-version check (`bad_cql_protocol_version` when
the header's version byte disagrees with the connection's version). -/
def parse_frame (v : Nat) (buf : List Nat) : Except Failure CqlFrame :=
  if buf.length ≠ frame_size v then .error .frameError
  else match parse_frame_fields v buf with
    | .error e => .error e
    | .ok f => if f.version ≠ v then .error .badVersion else .ok f

/-- `response::make_message`: the frame header built from the final body
length, followed by the body. -/
def make_message (version stream opcode : Nat) (body : List Nat) :
    Except Failure (List Nat) :=
  match make_frame version stream opcode body.length with
  | .error e => .error e
  | .ok hdr => .ok (hdr ++ body)

/-- `connection::write_error`: an ERROR response (opcode 0) whose body is the
4-byte error code followed by the short-string message. -/
def write_error (version stream err : Nat) (msg : List Nat) :
    Except Failure (List Nat) :=
  match write_string_b msg with
  | .error e => .error e
  | .ok m => make_message version stream 0 (write_int_b err ++ m)

/-- `connection::write_ready`: a READY response (opcode 2) with empty body. -/
def write_ready (version stream : Nat) : Except Failure (List Nat) :=
  make_message version stream 2 []

/-- The byte string `CQL_VERSION`. -/
def CQL_VERSION : List Nat := [67, 81, 76, 95, 86, 69, 82, 83, 73, 79, 78]

/-- The byte string `COMPRESSION`. -/
def COMPRESSION : List Nat := [67, 79, 77, 80, 82, 69, 83, 83, 73, 79, 78]

/-- The options multimap built by `write_supported`:
`CQL_VERSION → 3.0.0`, `CQL_VERSION → 3.2.0`, `COMPRESSION → snappy`. -/
def supported_opts : List (List Nat × List Nat) :=
  mm_insert (mm_insert (mm_insert [] (CQL_VERSION, [51, 46, 48, 46, 48]))
    (CQL_VERSION, [51, 46, 50, 46, 48])) (COMPRESSION, [115, 110, 97, 112, 112, 121])

/-- `connection::write_supported`: a SUPPORTED response (opcode 6) carrying the
options multimap. -/
def write_supported (version stream : Nat) : Except Failure (List Nat) :=
  match write_string_multimap supported_opts with
  | .error e => .error e
  | .ok body => make_message version stream 6 body

/-- Connection state: the negotiated version (`0` = not yet set, as in the
`_version = 0` member initializer), the unread input bytes, and the response
bytes written so far. -/
structure ConnState where
  version : Nat
  input : List Nat
  output : List Nat
  deriving DecidableEq

/-- Outcome of one `process_request` iteration: clean end of stream; loop
continues; connection closed by a thrown exception; or a process-fatal event
(failed `assert` or undefined behavior). -/
inductive StepResult
  | eof (s : ConnState)
  | next (s : ConnState)
  | closed (e : Failure) (s : ConnState)
  | fatal (e : Failure) (s : ConnState)
  deriving DecidableEq

/-- The connection state carried by a step outcome. -/
def StepResult.state : StepResult → ConnState
  | .eof s => s
  | .next s => s
  | .closed _ s => s
  | .fatal _ s => s

/-- The opcode dispatch of `process_request`.  STARTUP (1) reads a string map
and replies READY; OPTIONS (5) replies SUPPORTED; QUERY (7) reads the query
text and hands it to the external lexer/parser collaborator (modelled as
accepting, producing no response); REGISTER (11) replies READY;
PREPARE (9), EXECUTE (10), BATCH (13), AUTH_RESPONSE (15) and every
unrecognized opcode hit `assert(0)`. -/
def dispatch (version stream opcode : Nat) (body : List Nat) :
    Except Failure (List Nat) :=
  match opcode with
  | 1 =>
    match read_string_map body with
    | .error e => .error e
    | .ok _ => write_ready version stream
  | 5 => write_supported version stream
  | 7 =>
    match read_long_string body with
    | .error e => .error e
    | .ok _ => .ok []
  | 9 | 10 | 13 | 15 => .error .abort
  | 11 => write_ready version stream
  | _ => .error .abort

/-- The body-processing part of `process_request`: read exactly `length` body
bytes, `assert(!(flags & 0x01))` (compression unsupported), dispatch on the
opcode, and append the response bytes (if any) to the connection's output. -/
def handle_frame (f : CqlFrame) (s : ConnState) : StepResult :=
  let body := s.input.take f.length
  let s1 : ConnState := ⟨s.version, s.input.drop f.length, s.output⟩
  if f.flags &&& 1 ≠ 0 then .fatal .abort s1
  else match dispatch s.version f.stream f.opcode body with
    | .ok resp => .next ⟨s1.version, s1.input, s1.output ++ resp⟩
    | .error e => .fatal e s1

/-- One iteration of the connection loop (`read_frame` followed by
`process_request`'s body handling).  On a fresh connection the first byte is
read alone and sets `_version` permanently; a version outside 1..4 throws
`bad_cql_protocol_version`.  If the stream ends inside the first header, the
C++ parses a partially uninitialized buffer (undefined behavior, `Failure.oob`).
On an established connection a full header is read; an empty read is EOF and a
short read fails the exact-size check in `parse_frame`. -/
def step (s : ConnState) : StepResult :=
  if s.version = 0 then
    match s.input with
    | [] => .eof s
    | b :: rest =>
      let s1 : ConnState := ⟨b, rest, s.output⟩
      if b < 1 ∨ 4 < b then .closed .badVersion s1
      else
        let s2 : ConnState := ⟨b, rest.drop (frame_size b - 1), s.output⟩
        if rest.length < frame_size b - 1 then .fatal .oob s2
        else match parse_frame b (b :: rest.take (frame_size b - 1)) with
          | .error e => .closed e s2
          | .ok f => handle_frame f s2
  else
    let hdr := s.input.take (frame_size s.version)
    let s1 : ConnState := ⟨s.version, s.input.drop (frame_size s.version), s.output⟩
    if hdr.isEmpty then .eof s1
    else match parse_frame s.version hdr with
      | .error e => .closed e s1
      | .ok f => handle_frame f s1

deriving instance DecidableEq for Except

/-- C1 (counterexample): decoding the header bytes produced by
`make_frame 1 0 0 0` does not yield the canonical header `(1, 0, 0, 0, 0)`:
the encoder sets the response bit in the version byte, so `parse_frame`
rejects the bytes with `bad_cql_protocol_version` instead. -/
theorem make_frame_roundtrip_fails_exact :
    (make_frame 1 0 0 0).bind (parse_frame 1) = .error .badVersion
    ∧ (make_frame 1 0 0 0).bind (parse_frame 1) ≠ .ok (⟨1, 0, 0, 0, 0⟩ : CqlFrame) :=
  ⟨by decide, by decide⟩

/-- C1 (amended): for every v ∈ {1,2,3,4}, stream id in the version's range,
opcode < 256 and body length < 2^32, decoding the header bytes produced by
`make_frame v s op n` recovers flags 0, stream id, opcode and length exactly,
and the version field as `v + 0x80` (the encoder sets the response bit); the
full `parse_frame` (which enforces the locked version) therefore rejects the
encoded header with `bad_cql_protocol_version` rather than yielding
`(v, s, op, n)`. -/
theorem header_roundtrip_response_bit (v s op n : Nat)
    (hv1 : 1 ≤ v) (hv4 : v ≤ 4)
    (hs : s < if v < 3 then 256 else 65536) (hop : op < 256)
    (hn : n < 4294967296) :
    (make_frame v s op n).bind (parse_frame_fields v)
        = .ok ⟨v + 128, 0, s, op, n⟩
    ∧ (make_frame v s op n).bind (parse_frame v) = .error .badVersion := by
  interval_cases v <;> norm_num at hs <;>
    refine ⟨?_, ?_⟩ <;>
      simp [make_frame, parse_frame, parse_frame_fields, frame_size, u32be, u16be,
        beNat, Except.bind, CqlFrame.mk.injEq] <;> omega

/-- C1 (witness for the amended claim) at v = 3, s = 300, op = 10, n = 70000. -/
theorem header_roundtrip_response_bit_witness :
    (make_frame 3 300 10 70000).bind (parse_frame_fields 3)
        = .ok ⟨131, 0, 300, 10, 70000⟩
    ∧ (make_frame 3 300 10 70000).bind (parse_frame 3) = .error .badVersion :=
  header_roundtrip_response_bit 3 300 10 70000 (by decide) (by decide) (by decide)
    (by decide) (by decide)

/-- C3: the wire-type read operations contain no truncation check at all: on a
cursor holding fewer bytes than the operation requires, each performs an
out-of-bounds buffer access (undefined behavior, modelled `Failure.oob`); none
of them surfaces a `TruncatedFrame` error, which does not exist in the code. -/
theorem read_ops_truncated_oob :
    read_byte [] = .error .oob
    ∧ read_short [7] = .error .oob
    ∧ read_int [1, 2, 3] = .error .oob
    ∧ read_long [1, 2, 3, 4, 5, 6, 7] = .error .oob
    ∧ read_string [0, 5, 97] = .error .oob
    ∧ read_long_string [0, 0, 0, 3, 97] = .error .oob
    ∧ read_string_map [0, 1] = .error .oob
    ∧ read_consistency [0] = .error .oob :=
  ⟨rfl, rfl, rfl, rfl, rfl, rfl, rfl, rfl⟩

/-- C4: a well-formed EXECUTE frame (opcode 10, and likewise PREPARE 9,
BATCH 13, AUTH_RESPONSE 15) does not produce an
ERROR(SERVER_ERROR, "not implemented") response: its handler is `assert(0)`,
which aborts the whole process with no response bytes written, so the
connection does not remain usable. -/
theorem unimplemented_opcodes_abort :
    step ⟨3, [3, 0, 0, 0, 10, 0, 0, 0, 0], []⟩ = .fatal .abort ⟨3, [], []⟩
    ∧ dispatch 3 0 9 [] = .error .abort
    ∧ dispatch 3 0 10 [] = .error .abort
    ∧ dispatch 3 0 13 [] = .error .abort
    ∧ dispatch 3 0 15 [] = .error .abort :=
  ⟨by decide, rfl, rfl, rfl, rfl⟩

/-- The first defined of two optional values (first-match combination used to
describe `lookupA` over composite maps). -/
def firstOf (a b : Option (List Nat)) : Option (List Nat) :=
  match a with
  | some v => some v
  | none => b

theorem firstOf_none (a : Option (List Nat)) : firstOf a none = a := by
  cases a <;> rfl

theorem firstOf_assoc (a b c : Option (List Nat)) :
    firstOf (firstOf a b) c = firstOf a (firstOf b c) := by
  cases a <;> rfl

theorem lookupA_append (m l : List (List Nat × List Nat)) (x : List Nat) :
    lookupA (m ++ l) x = firstOf (lookupA m x) (lookupA l x) := by
  induction m with
  | nil => rfl
  | cons p t ih =>
    obtain ⟨k, v⟩ := p
    by_cases h : k = x <;> simp [lookupA, h, ih, firstOf]

theorem lookupA_cons (k v x : List Nat) (t : List (List Nat × List Nat)) :
    lookupA ((k, v) :: t) x
      = firstOf (if k = x then some v else none) (lookupA t x) := by
  by_cases h : k = x <;> simp [lookupA, h, firstOf]

theorem lookupA_emplace (m : List (List Nat × List Nat)) (k v x : List Nat) :
    lookupA (emplace m k v) x
      = firstOf (lookupA m x) (if k = x then some v else none) := by
  unfold emplace
  by_cases hk : (lookupA m k).isSome
  · rw [if_pos hk]
    by_cases hx : k = x
    · subst hx
      obtain ⟨w, hw⟩ := Option.isSome_iff_exists.mp hk
      simp [hw, firstOf]
    · simp [hx, firstOf_none]
  · rw [if_neg hk]
    rw [lookupA_append]
    have hone : lookupA [(k, v)] x = if k = x then some v else none := by
      by_cases hx : k = x <;> simp [lookupA, hx]
    rw [hone]

theorem lookupA_foldl_emplace (ps : List (List Nat × List Nat))
    (m : List (List Nat × List Nat)) (x : List Nat) :
    lookupA (ps.foldl (fun m p => emplace m p.1 p.2) m) x
      = firstOf (lookupA m x) (lookupA ps x) := by
  induction ps generalizing m with
  | nil => simp [lookupA, firstOf_none]
  | cons p t ih =>
    obtain ⟨k, v⟩ := p
    simp only [List.foldl_cons]
    rw [ih, lookupA_emplace, firstOf_assoc, lookupA_cons]

theorem lookupA_eq_none (m : List (List Nat × List Nat)) (x : List Nat) :
    lookupA m x = none ↔ x ∉ m.map Prod.fst := by
  induction m with
  | nil => simp [lookupA]
  | cons p t ih =>
    obtain ⟨k, v⟩ := p
    simp only [lookupA, List.map_cons, List.mem_cons]
    by_cases h : k = x
    · subst h
      simp
    · simp only [if_neg h, ih]
      constructor
      · intro hn hor
        rcases hor with h1 | h2
        · exact h h1.symm
        · exact hn h2
      · intro hno hm
        exact hno (Or.inr hm)

theorem emplace_keys_nodup (m : List (List Nat × List Nat)) (k v : List Nat)
    (h : (m.map Prod.fst).Nodup) : ((emplace m k v).map Prod.fst).Nodup := by
  unfold emplace
  by_cases hk : (lookupA m k).isSome
  · simpa [hk]
  · rw [if_neg hk]
    have hnm : k ∉ m.map Prod.fst :=
      (lookupA_eq_none m k).mp (Option.not_isSome_iff_eq_none.mp hk)
    rw [List.map_append, List.nodup_append]
    refine ⟨h, List.nodup_singleton _, ?_⟩
    intro a ha hb
    simp only [List.map_cons, List.map_nil, List.mem_singleton] at hb
    subst hb
    exact hnm ha

theorem foldl_emplace_keys_nodup (ps : List (List Nat × List Nat))
    (m : List (List Nat × List Nat)) (h : (m.map Prod.fst).Nodup) :
    (((ps.foldl (fun m p => emplace m p.1 p.2) m)).map Prod.fst).Nodup := by
  induction ps generalizing m with
  | nil => exact h
  | cons p t ih =>
    simp only [List.foldl_cons]
    exact ih _ (emplace_keys_nodup m p.1 p.2 h)

/-- Reading back one encoded short string recovers it and leaves the rest. -/
theorem read_string_encode (s rest : List Nat) (h : s.length < 32768) :
    read_string (encode_string s ++ rest) = .ok (s, rest) := by
  have h16 : s.length / 256 % 256 * 256 + s.length % 256 = s.length := by omega
  simp only [encode_string, u16be, List.cons_append, List.nil_append,
    List.append_assoc, read_string, read_short, h16]
  rw [if_neg (by omega)]
  rw [if_neg (by simp [List.length_append])]
  simp [List.take_left, List.drop_left]

/-- Reading back `ps.length` encoded pairs accumulates them with `emplace` and
consumes the whole input. -/
theorem read_pairs_encode (ps : List (List Nat × List Nat))
    (m : List (List Nat × List Nat))
    (hlen : ∀ p ∈ ps, p.1.length < 32768 ∧ p.2.length < 32768) :
    read_pairs ps.length m
        ((ps.map (fun p => encode_string p.1 ++ encode_string p.2)).flatten)
      = .ok (ps.foldl (fun m p => emplace m p.1 p.2) m, []) := by
  induction ps generalizing m with
  | nil => rfl
  | cons p t ih =>
    obtain ⟨k, v⟩ := p
    have hk : k.length < 32768 := (hlen _ (List.mem_cons_self _ _)).1
    have hv : v.length < 32768 := (hlen _ (List.mem_cons_self _ _)).2
    simp only [List.map_cons, List.flatten_cons, List.length_cons,
      List.append_assoc]
    have e1 := read_string_encode k
      (encode_string v
        ++ (t.map (fun p => encode_string p.1 ++ encode_string p.2)).flatten) hk
    have e2 := read_string_encode v
      ((t.map (fun p => encode_string p.1 ++ encode_string p.2)).flatten) hv
    simp only [read_pairs, e1, e2, List.foldl_cons]
    exact ih (emplace m k v) (fun q hq => hlen q (List.mem_cons_of_mem _ hq))

/-- C5 (counterexample): decoding a string map carrying the key "a" twice
(values "1" then "2") binds "a" to the FIRST value "1", not the later "2":
`unordered_map::emplace` does not overwrite. -/
theorem string_map_later_occurrence_loses :
    read_string_map [0, 2, 0, 1, 97, 0, 1, 49, 0, 1, 97, 0, 1, 50]
      = .ok ([([97], [49])], [])
    ∧ lookupA [([97], [49])] [97] ≠ some [50] :=
  ⟨rfl, by decide⟩

/-- C5 (amended): decoding an encoded string map (pair count below 32768 — the
count is read as a signed 16-bit loop bound — and each key/value shorter than
32768 bytes) yields a mapping that contains each key exactly once and binds
every key to the value of its EARLIEST (first) occurrence in the input;
later duplicate occurrences are discarded by `emplace`. -/
theorem string_map_decode_first_wins (ps : List (List Nat × List Nat))
    (hc : ps.length < 32768)
    (hlen : ∀ p ∈ ps, p.1.length < 32768 ∧ p.2.length < 32768) :
    read_string_map (encode_string_map ps)
        = .ok (ps.foldl (fun m p => emplace m p.1 p.2) [], [])
    ∧ (((ps.foldl (fun m p => emplace m p.1 p.2) [])).map Prod.fst).Nodup
    ∧ ∀ x, lookupA (ps.foldl (fun m p => emplace m p.1 p.2) []) x
        = lookupA ps x := by
  refine ⟨?_, foldl_emplace_keys_nodup ps [] (by simp), fun x => ?_⟩
  · have h16 : ps.length / 256 % 256 * 256 + ps.length % 256 = ps.length := by
      omega
    simp only [encode_string_map, u16be, List.cons_append, List.nil_append,
      read_string_map, read_short, h16]
    rw [if_neg (by omega)]
    exact read_pairs_encode ps [] hlen
  · rw [lookupA_foldl_emplace]
    rfl

/-- C5 witness for the amended claim: the duplicate-key input
[("a","1"), ("a","2")]. -/
theorem string_map_decode_first_wins_witness :
    read_string_map (encode_string_map [([97], [49]), ([97], [50])])
      = .ok ([([97], [49])], []) :=
  (string_map_decode_first_wins [([97], [49]), ([97], [50])] (by decide)
    (by decide)).1

/-- C6: `consistency_to_wire` and `wire_to_consistency` invert each other over
the eleven levels and the codes 0x0000–0x000A, but decoding the unmapped code
0x9999 hits `assert(0)` (a process abort), not a surfaced decode error — and
in particular returns no default level. -/
theorem consistency_bijection_unmapped_aborts :
    (∀ c : consistency_level, wire_to_consistency (consistency_to_wire c) = .ok c)
    ∧ (∀ n : Fin 11, (wire_to_consistency n.val).map consistency_to_wire = .ok n.val)
    ∧ wire_to_consistency 0x9999 = .error .abort := by
  refine ⟨fun c => ?_, by decide, rfl⟩
  cases c <;> rfl

/-- C7: a frame whose flags byte has bit 0x01 (compression) set fails the
`assert(!(flags & 0x01))`: processing that frame ends fatally with no response
bytes written, so no response frame is ever sent for it and the connection does
not continue. -/
theorem compressed_frame_fatal (f : CqlFrame) (s : ConnState)
    (h : f.flags &&& 1 ≠ 0) :
    handle_frame f s = .fatal .abort ⟨s.version, s.input.drop f.length, s.output⟩ := by
  simp only [handle_frame]
  rw [if_pos h]

/-- C7 witness: a concrete compressed frame on an established connection. -/
theorem compressed_frame_fatal_witness :
    handle_frame ⟨3, 1, 0, 5, 0⟩ ⟨3, [], []⟩ = .fatal .abort ⟨3, [], []⟩ :=
  compressed_frame_fatal ⟨3, 1, 0, 5, 0⟩ ⟨3, [], []⟩ (by decide)

/-- Frame handling never changes the connection's negotiated version. -/
theorem handle_frame_version (f : CqlFrame) (s : ConnState) :
    (handle_frame f s).state.version = s.version := by
  simp only [handle_frame]
  split
  · rfl
  · split <;> rfl

/-- A full-size header whose leading version byte disagrees with the locked
version parses to `bad_cql_protocol_version`. -/
theorem parse_frame_mismatch (v b : Nat) (hdr : List Nat)
    (hv1 : 1 ≤ v) (hv4 : v ≤ 4) (hlen : hdr.length = frame_size v)
    (hhead : hdr.head? = some b) (hne : b ≠ v) :
    parse_frame v hdr = .error .badVersion := by
  interval_cases v <;>
    rcases hdr with _ | ⟨a0, _ | ⟨a1, _ | ⟨a2, _ | ⟨a3, _ | ⟨a4, _ |
      ⟨a5, _ | ⟨a6, _ | ⟨a7, _ | ⟨a8, tl⟩⟩⟩⟩⟩⟩⟩⟩⟩ <;>
    simp_all [parse_frame, parse_frame_fields, frame_size]

/-- C2: (1) a step of the loop on an established connection that continues
keeps the negotiated version unchanged; (2) the first byte ever read on a
fresh connection becomes the connection's version in every outcome, hence
permanently; (3) on an established connection with version v ∈ 1..4, a frame
whose header's version byte differs from v makes the step close the connection
with `bad_cql_protocol_version` and no response bytes written. -/
theorem version_lock :
    (∀ s t : ConnState, s.version ≠ 0 → step s = .next t → t.version = s.version)
    ∧ (∀ (b : Nat) (rest out : List Nat),
        (step ⟨0, b :: rest, out⟩).state.version = b)
    ∧ (∀ (v b : Nat) (hdr tail out : List Nat), 1 ≤ v → v ≤ 4 →
        hdr.length = frame_size v → hdr.head? = some b → b ≠ v →
        step ⟨v, hdr ++ tail, out⟩ = .closed .badVersion ⟨v, tail, out⟩) := by
  refine ⟨?_, ?_, ?_⟩
  · intro s t hv h
    simp only [step, if_neg hv] at h
    by_cases he : (s.input.take (frame_size s.version)).isEmpty
    · rw [if_pos he] at h; simp at h
    · rw [if_neg he] at h
      rcases hp : parse_frame s.version (s.input.take (frame_size s.version)) with e | f
      · rw [hp] at h; simp at h
      · rw [hp] at h
        have h2 : handle_frame f
            ⟨s.version, s.input.drop (frame_size s.version), s.output⟩ = .next t := h
        have hv2 := handle_frame_version f
          ⟨s.version, s.input.drop (frame_size s.version), s.output⟩
        rw [h2] at hv2
        exact hv2
  · intro b rest out
    simp only [step]
    repeat' split
    all_goals first
      | rfl
      | exact handle_frame_version _ _
      | omega
      | simp_all
  · intro v b hdr tail out hv1 hv4 hlen hhead hne
    have hv : v ≠ 0 := by omega
    have h8 : 1 ≤ frame_size v := by unfold frame_size; split <;> omega
    have hcons : hdr.isEmpty = false := by
      cases hdr
      · simp at hlen; omega
      · rfl
    simp only [step, if_neg hv, hlen.symm, List.take_left, List.drop_left]
    rw [if_neg (by simp [hcons])]
    rw [parse_frame_mismatch v b hdr hv1 hv4 hlen hhead hne]

/-- C2 witness: an established v3 connection receiving a header whose version
byte is 4. -/
theorem version_lock_witness :
    step ⟨3, [4, 0, 0, 0, 5, 0, 0, 0, 0], []⟩ = .closed .badVersion ⟨3, [], []⟩ :=
  version_lock.2.2 3 4 [4, 0, 0, 0, 5, 0, 0, 0, 0] [] [] (by decide) (by decide)
    (by decide) (by decide) (by decide)

theorem collectKeysAux_congr : ∀ (f1 f2 : Nat) (mm : List (List Nat × List Nat)),
    mm.length ≤ f1 → mm.length ≤ f2 →
    collectKeysAux f1 mm = collectKeysAux f2 mm := by
  intro f1
  induction f1 with
  | zero =>
    intro f2 mm h1 h2
    have hmm : mm = [] := List.length_eq_zero.mp (Nat.le_zero.mp h1)
    subst hmm
    cases f2 <;> rfl
  | succ f ih =>
    intro f2 mm h1 h2
    cases mm with
    | nil => cases f2 <;> rfl
    | cons p t =>
      obtain ⟨k, v⟩ := p
      cases f2 with
      | zero => simp at h2
      | succ f2 =>
        have h1' : t.length ≤ f := by simp at h1; omega
        have h2' : t.length ≤ f2 := by simp at h2; omega
        simp only [collectKeysAux]
        congr 1
        exact ih f2 _
          (le_trans (List.dropWhile_sublist _).length_le h1')
          (le_trans (List.dropWhile_sublist _).length_le h2')

theorem collectKeys_cons (k v : List Nat) (t : List (List Nat × List Nat)) :
    collectKeys ((k, v) :: t)
      = k :: collectKeys (t.dropWhile (fun p => decide (p.1 ≤ k))) := by
  unfold collectKeys
  simp only [List.length_cons, collectKeysAux]
  congr 1
  exact collectKeysAux_congr t.length _ _
    (List.Sublist.length_le (List.dropWhile_sublist _)) le_rfl

theorem dropWhile_append_all (p : List Nat × List Nat → Bool)
    (l1 l2 : List (List Nat × List Nat)) (h : ∀ a ∈ l1, p a = true) :
    List.dropWhile p (l1 ++ l2) = List.dropWhile p l2 := by
  induction l1 with
  | nil => rfl
  | cons a t ih =>
    rw [List.cons_append, List.dropWhile_cons,
      if_pos (h a (List.mem_cons_self a t))]
    exact ih (fun b hb => h b (List.mem_cons_of_mem a hb))

theorem takeWhile_append_all (p : List Nat × List Nat → Bool)
    (l1 l2 : List (List Nat × List Nat)) (h : ∀ a ∈ l1, p a = true) :
    List.takeWhile p (l1 ++ l2) = l1 ++ List.takeWhile p l2 := by
  induction l1 with
  | nil => rfl
  | cons a t ih =>
    rw [List.cons_append, List.takeWhile_cons,
      if_pos (h a (List.mem_cons_self a t)), List.cons_append,
      ih (fun b hb => h b (List.mem_cons_of_mem a hb))]

theorem takeWhile_all_false (p : List Nat × List Nat → Bool)
    (l : List (List Nat × List Nat)) (h : ∀ a ∈ l, p a = false) :
    List.takeWhile p l = [] := by
  cases l with
  | nil => rfl
  | cons a t =>
    rw [List.takeWhile_cons, if_neg (by simp [h a (List.mem_cons_self a t)])]

/-- In a sorted multimap, everything past the `upper_bound` of `k` has key
strictly greater than `k`. -/
theorem dropWhile_gt (t : List (List Nat × List Nat)) (k : List Nat)
    (hs : List.Pairwise (fun p q : List Nat × List Nat => p.1 ≤ q.1) t) :
    ∀ p ∈ t.dropWhile (fun p => decide (p.1 ≤ k)), k < p.1 := by
  induction t with
  | nil => intro p hp; cases hp
  | cons q r ih =>
    rw [List.pairwise_cons] at hs
    intro p hp
    rw [List.dropWhile_cons] at hp
    by_cases hq : q.1 ≤ k
    · rw [if_pos (by simp [hq])] at hp
      exact ih hs.2 p hp
    · rw [if_neg (by simp [hq])] at hp
      rcases List.mem_cons.mp hp with rfl | hp2
      · exact not_le.mp hq
      · exact lt_of_lt_of_le (not_le.mp hq) (hs.1 p hp2)

theorem multimap_grouping_aux :
    ∀ (n : Nat) (mm : List (List Nat × List Nat)), mm.length ≤ n →
    List.Pairwise (fun p q : List Nat × List Nat => p.1 ≤ q.1) mm →
    ((∀ x, x ∈ collectKeys mm ↔ x ∈ mm.map Prod.fst)
      ∧ List.Pairwise (fun a b : List Nat => a < b) (collectKeys mm)
      ∧ ∀ k ∈ collectKeys mm,
          groupValues mm k
            = (mm.filter (fun p => decide (p.1 = k))).map Prod.snd) := by
  intro n
  induction n with
  | zero =>
    intro mm hle _
    have hmm : mm = [] := List.length_eq_zero.mp (Nat.le_zero.mp hle)
    subst hmm
    refine ⟨fun x => by simp [collectKeys, collectKeysAux], ?_, ?_⟩
    · simp [collectKeys, collectKeysAux]
    · intro k hk
      simp [collectKeys, collectKeysAux] at hk
  | succ n ih =>
    intro mm hle hs
    rcases mm with _ | ⟨⟨k, v⟩, t⟩
    · refine ⟨fun x => by simp [collectKeys, collectKeysAux], ?_, ?_⟩
      · simp [collectKeys, collectKeysAux]
      · intro key hk
        simp [collectKeys, collectKeysAux] at hk
    · rcases List.pairwise_cons.mp hs with ⟨hk_le, hst⟩
      have hsplit : t.takeWhile (fun p => decide (p.1 ≤ k))
          ++ t.dropWhile (fun p => decide (p.1 ≤ k)) = t :=
        List.takeWhile_append_dropWhile _ _
      have hlen' : (t.dropWhile (fun p => decide (p.1 ≤ k))).length ≤ n := by
        have h1 : t.length ≤ n := by simp at hle; omega
        exact le_trans (List.Sublist.length_le (List.dropWhile_sublist _)) h1
      have hs' : List.Pairwise (fun p q : List Nat × List Nat => p.1 ≤ q.1)
          (t.dropWhile (fun p => decide (p.1 ≤ k))) :=
        List.Pairwise.sublist (List.dropWhile_sublist _) hst
      have hgt := dropWhile_gt t k hst
      have ht1 : ∀ p ∈ t.takeWhile (fun p => decide (p.1 ≤ k)), p.1 = k := by
        intro p hp
        have hle2 : p.1 ≤ k := by simpa using List.mem_takeWhile_imp hp
        have hge : k ≤ p.1 :=
          hk_le p (List.Sublist.mem hp (List.takeWhile_sublist _))
        exact le_antisymm hle2 hge
      obtain ⟨iH1, iH2, iH3⟩ := ih _ hlen' hs'
      have ck := collectKeys_cons k v t
      refine ⟨?_, ?_, ?_⟩
      · intro x
        rw [ck, List.mem_cons, iH1 x]
        simp only [List.map_cons, List.mem_cons]
        constructor
        · rintro (rfl | hx)
          · exact Or.inl rfl
          · exact Or.inr (List.Sublist.mem hx
              (List.Sublist.map Prod.fst (List.dropWhile_sublist _)))
        · rintro (rfl | hx)
          · exact Or.inl rfl
          · rw [← hsplit, List.map_append, List.mem_append] at hx
            rcases hx with h1 | h2
            · obtain ⟨p, hp, rfl⟩ := List.mem_map.mp h1
              exact Or.inl (ht1 p hp)
            · exact Or.inr h2
      · rw [ck, List.pairwise_cons]
        refine ⟨?_, iH2⟩
        intro x hx
        obtain ⟨p, hp, rfl⟩ := List.mem_map.mp ((iH1 x).mp hx)
        exact hgt p hp
      · intro key hkey
        rw [ck] at hkey
        rcases List.mem_cons.mp hkey with heq | hk2
        · subst heq
          have hft : t.filter (fun p => decide (p.1 = key))
              = t.takeWhile (fun p => decide (p.1 ≤ key)) := by
            conv_lhs => rw [← hsplit]
            rw [List.filter_append,
              List.filter_eq_self.mpr (fun a ha => by simp [ht1 a ha]),
              List.filter_eq_nil_iff.mpr
                (fun a ha => by simpa using ne_of_gt (hgt a ha)),
              List.append_nil]
          unfold groupValues
          rw [List.dropWhile_cons, if_neg (by simp), List.takeWhile_cons,
            if_pos (by simp), List.filter_cons, if_pos (by simp), hft]
        · obtain ⟨p0, hp0, rfl⟩ := List.mem_map.mp ((iH1 key).mp hk2)
          have hkp : k < p0.1 := hgt p0 hp0
          have hd : t.dropWhile (fun p => decide (p.1 < p0.1))
              = (t.dropWhile (fun p => decide (p.1 ≤ k))).dropWhile
                  (fun p => decide (p.1 < p0.1)) := by
            conv_lhs => rw [← hsplit]
            exact dropWhile_append_all _ _ _
              (fun a ha => by simp [ht1 a ha]; exact hkp)
          have hf : t.filter (fun p => decide (p.1 = p0.1))
              = (t.dropWhile (fun p => decide (p.1 ≤ k))).filter
                  (fun p => decide (p.1 = p0.1)) := by
            conv_lhs => rw [← hsplit]
            rw [List.filter_append,
              List.filter_eq_nil_iff.mpr
                (fun a ha => by simp [ht1 a ha]; exact ne_of_lt hkp),
              List.nil_append]
          have h3 := iH3 p0.1 hk2
          unfold groupValues at h3
          unfold groupValues
          rw [List.dropWhile_cons, if_pos (by simp [hkp]), hd,
            List.filter_cons, if_neg (by simpa using ne_of_lt hkp), hf]
          exact h3

/-- C8 (counterexample): inserting ("b","1") then ("a","2") into the multimap
and encoding it enumerates the keys in sorted order "a","b" — not in the
first-seen insertion order "b","a". -/
theorem multimap_first_seen_counterexample :
    (multimap_groups (mm_insert (mm_insert [] ([98], [49])) ([97], [50]))).map
        Prod.fst = [[97], [98]]
    ∧ ([[97], [98]] : List (List Nat)) ≠ [[98], [97]]
    ∧ write_string_multimap (mm_insert (mm_insert [] ([98], [49])) ([97], [50]))
      = .ok [0, 2, 0, 1, 97, 0, 1, 0, 1, 50, 0, 1, 98, 0, 1, 0, 1, 49] :=
  ⟨by decide, by decide, by decide⟩

/-- C8 (amended): for every multimap (a key-sorted pair list, the invariant of
`std::multimap`), the encoded structure enumerates exactly the distinct keys of
the multimap, each exactly once (strictly ascending, hence no duplicates), in
ascending key order — the multimap's traversal order, which is sorted order
rather than insertion first-seen order — and groups under each enumerated key
exactly that key's values in multimap order. -/
theorem multimap_grouping (mm : List (List Nat × List Nat))
    (hs : List.Pairwise (fun p q => p.1 ≤ q.1) mm) :
    (∀ x, x ∈ collectKeys mm ↔ x ∈ mm.map Prod.fst)
    ∧ (collectKeys mm).Nodup
    ∧ List.Pairwise (fun a b => a < b) (collectKeys mm)
    ∧ ∀ k ∈ collectKeys mm,
        groupValues mm k = (mm.filter (fun p => decide (p.1 = k))).map Prod.snd := by
  obtain ⟨h1, h2, h3⟩ := multimap_grouping_aux mm.length mm le_rfl hs
  exact ⟨h1, h2.imp (fun hab => ne_of_lt hab), h2, h3⟩

/-- C8 witness: the sorted two-key multimap [("a","2"), ("b","1")]. -/
theorem multimap_grouping_witness :
    List.Pairwise (fun a b : List Nat => a < b)
      (collectKeys [([97], [50]), ([98], [49])]) :=
  (multimap_grouping [([97], [50]), ([98], [49])] (by decide)).2.2.1

/-- C9: every response frame header produced by `make_frame`, for every
version in {1,2,3,4}, has its flags byte (offset 1) equal to 0x00. -/
theorem response_flags_zero (v s op n : Nat) (hv1 : 1 ≤ v) (hv4 : v ≤ 4) :
    (make_frame v s op n).map (fun bs => bs[1]?) = .ok (some 0) := by
  interval_cases v <;> rfl

/-- C9 witness at v = 2. -/
theorem response_flags_zero_witness :
    (make_frame 2 7 8 9).map (fun bs => bs[1]?) = .ok (some 0) :=
  response_flags_zero 2 7 8 9 (by decide) (by decide)

/-- C10: `write_error` builds an ERROR frame (opcode 0) whose body is exactly
the 4-byte big-endian error code followed by the u16-length-prefixed message,
in that order. -/
theorem error_body_layout (v s err : Nat) (msg : List Nat)
    (hm : msg.length < 32767) :
    write_error v s err msg
      = make_message v s 0 (u32be err ++ u16be msg.length ++ msg) := by
  have hb : ¬ 32767 ≤ msg.length := by omega
  simp [write_error, write_string_b, hb, write_int_b, List.append_assoc]

/-- C10 witness: error code 0 (SERVER_ERROR) with message "hi". -/
theorem error_body_layout_witness :
    write_error 3 1 0 [104, 105]
      = make_message 3 1 0 (u32be 0 ++ u16be 2 ++ [104, 105]) :=
  error_body_layout 3 1 0 [104, 105] (by decide)

end Scylla
